import Mathlib

/-!
Verification of the CryptoInvest evaluation core: indicator computation
(`indicators.py`), support/resistance level tracking (`levels.py`), the
signal rule evaluator (`signals.py`), the backtest simulator
(`backtest.py`) and the worker failure path (`worker.py`).

Prices and volumes are embedded as rationals (ℚ), timestamps as naturals,
pandas NaN/None as `Option`, and Python exceptions as `Except String`.
-/

namespace CryptoInvest

/-! ## Indicator engine (`indicators.py`) -/

/-- Recursive tail of an exponential moving average: each output is
`α·x + (1-α)·prev` (pandas `ewm(..., adjust=False)` semantics). -/
def emaGo (α : ℚ) (prev : ℚ) : List ℚ → List ℚ
  | [] => []
  | x :: xs => (α * x + (1 - α) * prev) :: emaGo α (α * x + (1 - α) * prev) xs

/-- Exponential moving average with `adjust=False`: seeded with the first
input value, then the recursion `α·x + (1-α)·prev`. -/
def emaCore (α : ℚ) : List ℚ → List ℚ
  | [] => []
  | x :: xs => x :: emaGo α x xs

/-- `ema(series, period)` from `indicators.py`: raises on `period <= 0`,
otherwise `series.ewm(span=period, adjust=False).mean()`, whose smoothing
factor is `α = 2/(period+1)`. -/
def ema (series : List ℚ) (period : ℤ) : Except String (List ℚ) :=
  if period ≤ 0 then .error "period must be positive"
  else .ok (emaCore (2 / ((period : ℚ) + 1)) series)

/-- `macd(close, fast, slow, signal)` from `indicators.py`: validates the
periods, then `macd_line = ema(close,fast) - ema(close,slow)`,
`macd_signal = macd_line.ewm(span=signal, adjust=False).mean()`,
`macd_hist = macd_line - macd_signal`. The inner `ema` calls are unfolded
to `emaCore` since the guard already ensures their periods are positive. -/
def macd (close : List ℚ) (fast slow signal : ℤ) :
    Except String (List ℚ × List ℚ × List ℚ) :=
  if fast ≤ 0 ∨ slow ≤ 0 ∨ signal ≤ 0 then .error "MACD periods must be positive"
  else if slow ≤ fast then .error "fast must be less than slow"
  else
    let macdLine := List.zipWith (fun a b => a - b)
      (emaCore (2 / ((fast : ℚ) + 1)) close)
      (emaCore (2 / ((slow : ℚ) + 1)) close)
    let macdSignal := emaCore (2 / ((signal : ℚ) + 1)) macdLine
    .ok (macdLine, macdSignal, List.zipWith (fun a b => a - b) macdLine macdSignal)

/-- First differences of a series, `series.diff()` dropping the leading NaN:
entry `i` is `s[i+1] - s[i]`. -/
def rsiDeltas (s : List ℚ) : List ℚ :=
  List.zipWith (fun a b => a - b) s.tail s

/-- Wilder-smoothed average gain: `gain.ewm(alpha=1/period, adjust=False)`
on the clipped positive deltas (the leading NaN of `diff` is skipped, so the
recursion seeds at the first delta). -/
def wilderAvgGain (s : List ℚ) (period : ℕ) : List ℚ :=
  emaCore (1 / (period : ℚ)) ((rsiDeltas s).map (fun d => max d 0))

/-- Wilder-smoothed average loss: `loss.ewm(alpha=1/period, adjust=False)`
on the clipped negative deltas. -/
def wilderAvgLoss (s : List ℚ) (period : ℕ) : List ℚ :=
  emaCore (1 / (period : ℚ)) ((rsiDeltas s).map (fun d => max (0 - d) 0))

/-- The value pipeline of `rsi`: `RS = avg_gain/avg_loss` with zero losses
replaced by NaN, `100 - 100/(1+RS)`, rows with `avg_loss = 0` forced to
`100`, then clipped to `[0,100]`. `min_periods=period` makes the output
NaN until `period` observed deltas exist, i.e. for rows `i < period`
(aligned so that row `i` of the input corresponds to delta `i-1`). -/
def rsiCore (s : List ℚ) (period : ℕ) : List (Option ℚ) :=
  (List.range s.length).map (fun i =>
    if period ≤ i then
      some (max 0 (min 100
        (if (wilderAvgLoss s period).getD (i - 1) 0 = 0 then 100
         else 100 - 100 / (1 + (wilderAvgGain s period).getD (i - 1) 0 /
            (wilderAvgLoss s period).getD (i - 1) 0))))
    else none)

/-- `rsi(series, period)` from `indicators.py`: raises on `period <= 0`,
otherwise the Wilder RSI pipeline. -/
def rsi (series : List ℚ) (period : ℤ) : Except String (List (Option ℚ)) :=
  if period ≤ 0 then .error "period must be positive"
  else .ok (rsiCore series period.toNat)

/-- Rolling simple mean with `min_periods = window`: defined from index
`window - 1` on, as the mean of the trailing window. -/
def volMaCore (v : List ℚ) (window : ℕ) : List (Option ℚ) :=
  (List.range v.length).map (fun i =>
    if window ≤ i + 1 then
      some ((((v.take (i + 1)).drop (i + 1 - window)).foldl (· + ·) 0) / (window : ℚ))
    else none)

/-- `volume_ma(volume, window)` from `indicators.py`: raises on
`window <= 0`, otherwise `volume.rolling(window, min_periods=window).mean()`. -/
def volume_ma (volume : List ℚ) (window : ℤ) : Except String (List (Option ℚ)) :=
  if window ≤ 0 then .error "window must be positive"
  else .ok (volMaCore volume window.toNat)

/-! ## Level tracker (`levels.py`) -/

/-- Pivot-high detection at one index: the candle's high equals the maximum
high over the trailing rolling window of size `w` ending at that candle
(`min_periods = w`, so undefined for the first `w - 1` rows). -/
def pivotHigh (high : List ℚ) (w : ℕ) (i : ℕ) : Option ℚ :=
  if w ≤ i + 1 then
    match high.get? i with
    | some h => if ((high.take (i + 1)).drop (i + 1 - w)).max? = some h then some h else none
    | none => none
  else none

/-- Pivot-low detection, symmetric with the trailing rolling minimum of the
lows. -/
def pivotLow (low : List ℚ) (w : ℕ) (i : ℕ) : Option ℚ :=
  if w ≤ i + 1 then
    match low.get? i with
    | some l => if ((low.take (i + 1)).drop (i + 1 - w)).min? = some l then some l else none
    | none => none
  else none

/-- `detect_pivots(df, window)` from `levels.py`: raises on `window <= 0`,
otherwise the two pivot columns. -/
def detect_pivots (high low : List ℚ) (window : ℤ) :
    Except String (List (Option ℚ) × List (Option ℚ)) :=
  if window ≤ 0 then .error "window must be positive"
  else .ok ((List.range high.length).map (pivotHigh high window.toNat),
            (List.range low.length).map (pivotLow low window.toNat))

/-- Python's `min` over a possibly empty list. -/
def optMin : List ℚ → Option ℚ
  | [] => none
  | x :: xs => some (xs.foldl min x)

/-- Python's `max` over a possibly empty list. -/
def optMax : List ℚ → Option ℚ
  | [] => none
  | x :: xs => some (xs.foldl max x)

/-- Row loop of `add_levels`: walks the given indices, appends the current
row's pivots to the seen resistances/supports, and emits
`(nearest_resistance, nearest_support)` for the row — the min of seen
resistances `≥ close` and the max of seen supports `≤ close`. -/
def levelsGo (high low close : List ℚ) (w : ℕ) :
    List ℕ → List ℚ → List ℚ → List (Option ℚ × Option ℚ)
  | [], _, _ => []
  | i :: rest, res, sup =>
    let res1 := match pivotHigh high w i with
      | some v => res ++ [v]
      | none => res
    let sup1 := match pivotLow low w i with
      | some v => sup ++ [v]
      | none => sup
    let c := close.getD i 0
    (optMin (res1.filter (fun r => c ≤ r)), optMax (sup1.filter (fun s => s ≤ c))) ::
      levelsGo high low close w rest res1 sup1

/-- `add_levels(df, window)` from `levels.py`, restricted to its two output
columns `(nearest_resistance, nearest_support)`. -/
def addLevels (high low close : List ℚ) (w : ℕ) : List (Option ℚ × Option ℚ) :=
  levelsGo high low close w (List.range close.length) [] []

/-! ## Signal rule evaluator (`signals.py`) -/

/-- The action of a signal. -/
inductive Action where
  | long
  | short
  | wait
deriving DecidableEq, Repr

/-- One feature row as consumed by `signal_from_row`; missing / NaN /
Infinity values (`_to_float_or_none`) are `none`. -/
structure FeatureRow where
  price : Option ℚ
  ema7 : Option ℚ
  macd_hist : Option ℚ
  macd_line : Option ℚ
  rsi6 : Option ℚ
  volume : Option ℚ
  ma5_volume : Option ℚ
  nearest_resistance : Option ℚ
  nearest_support : Option ℚ
deriving DecidableEq, Repr

/-- The signal dictionary produced by `signal_from_row`. -/
structure Signal where
  action : Action
  entry : Option ℚ
  stop_loss : Option ℚ
  target : Option ℚ
  rr_ratio : Option ℚ
deriving DecidableEq, Repr

/-- The all-`None` wait signal. -/
def waitSignal : Signal := ⟨.wait, none, none, none, none⟩

/-- `macd_long_ok`: hist or line strictly positive, absent fields failing. -/
def macdLongOk (r : FeatureRow) : Bool :=
  (match r.macd_hist with | some h => decide (0 < h) | none => false) ||
  (match r.macd_line with | some l => decide (0 < l) | none => false)

/-- `macd_short_ok`: hist or line strictly negative, absent fields failing. -/
def macdShortOk (r : FeatureRow) : Bool :=
  (match r.macd_hist with | some h => decide (h < 0) | none => false) ||
  (match r.macd_line with | some l => decide (l < 0) | none => false)

/-- `volume_ok`: both volume fields present and `volume > ma5_volume`. -/
def volumeOk (r : FeatureRow) : Bool :=
  match r.volume, r.ma5_volume with
  | some v, some m => decide (m < v)
  | _, _ => false

/-- `rsi_long_ok`: rsi present and `< 70`. -/
def rsiLongOk (r : FeatureRow) : Bool :=
  match r.rsi6 with | some x => decide (x < 70) | none => false

/-- `rsi_short_ok`: rsi present and `> 30`. -/
def rsiShortOk (r : FeatureRow) : Bool :=
  match r.rsi6 with | some x => decide (30 < x) | none => false

/-- `near_ema`: `(price - ema7)/ema7 < 0.01`. -/
def nearEma (price ema7 : ℚ) : Bool :=
  decide ((price - ema7) / ema7 < 1 / 100)

/-- `is_long` from `signal_from_row`. -/
def isLong (price ema7 : ℚ) (r : FeatureRow) : Bool :=
  decide (ema7 < price) && macdLongOk r && rsiLongOk r && volumeOk r && nearEma price ema7

/-- `is_short` from `signal_from_row`. -/
def isShort (price ema7 : ℚ) (r : FeatureRow) : Bool :=
  decide (price < ema7) && macdShortOk r && rsiShortOk r

/-- The long branch of `signal_from_row`. -/
def longSignal (ema7 : ℚ) (r : FeatureRow) : Signal :=
  let entry := ema7 * (101 / 100)
  let stop := ema7 * (985 / 1000)
  let target := r.nearest_resistance
  let rr := match target with
    | some tg => if stop < entry ∧ entry < tg then some ((tg - entry) / (entry - stop)) else none
    | none => none
  ⟨.long, some entry, some stop, target, rr⟩

/-- The short branch of `signal_from_row`. -/
def shortSignal (ema7 : ℚ) (r : FeatureRow) : Signal :=
  let entry := ema7 * (99 / 100)
  let stop := ema7 * (1015 / 1000)
  let target := r.nearest_support
  let rr := match target with
    | some tg => if entry < stop ∧ tg < entry then some ((entry - tg) / (stop - entry)) else none
    | none => none
  ⟨.short, some entry, some stop, target, rr⟩

/-- `signal_from_row` from `signals.py`: wait when price or ema7 is absent
or `ema7 = 0`; otherwise long takes priority over short, else wait. -/
def signalFromRow (r : FeatureRow) : Signal :=
  match r.price, r.ema7 with
  | some price, some ema7 =>
    if ema7 = 0 then waitSignal
    else if isLong price ema7 r then longSignal ema7 r
    else if isShort price ema7 r then shortSignal ema7 r
    else waitSignal
  | _, _ => waitSignal

/-- Variant written from the spec sentence about priority: identical rule
set, but with `is_short` evaluated before `is_long`; used to show the
evaluation order never decides the outcome. -/
def signalFromRowShortFirst (r : FeatureRow) : Signal :=
  match r.price, r.ema7 with
  | some price, some ema7 =>
    if ema7 = 0 then waitSignal
    else if isShort price ema7 r then shortSignal ema7 r
    else if isLong price ema7 r then longSignal ema7 r
    else waitSignal
  | _, _ => waitSignal

/-! ## Backtest simulator (`simulate_trades` in `backtest.py`) -/

/-- Trade side: the `action` of a row that opened an order. -/
inductive Side where
  | long
  | short
deriving DecidableEq, Repr

/-- Reason a trade was closed. -/
inductive ExitReason where
  | stop_and_target_same_candle
  | stop_loss
  | target
  | end_of_data
deriving DecidableEq, Repr

/-- Outcome label of a closed trade. -/
inductive Outcome where
  | win
  | loss
  | flat
deriving DecidableEq, Repr

/-- One row of the backtest frame inside the evaluation window: timestamp,
candle prices and the signal columns. -/
structure Row where
  ts : ℕ
  high : ℚ
  low : ℚ
  close : ℚ
  action : Action
  entry : Option ℚ
  stop_loss : Option ℚ
  target : Option ℚ
deriving DecidableEq, Repr

/-- A pending order awaiting execution on the next candle. -/
structure PendingOrder where
  signal_time : ℕ
  side : Side
  entry : ℚ
  stop_loss : ℚ
  target : ℚ
deriving DecidableEq, Repr

/-- An open trade. -/
structure OpenTrade where
  signal_time : ℕ
  entry_time : ℕ
  side : Side
  entry : ℚ
  stop_loss : ℚ
  target : ℚ
deriving DecidableEq, Repr

/-- A closed trade as recorded in the trades list. -/
structure ClosedTrade where
  signal_time : ℕ
  entry_time : ℕ
  exit_time : ℕ
  side : Side
  entry : ℚ
  stop_loss : ℚ
  target : ℚ
  exit_price : ℚ
  pnl : ℚ
  outcome : Outcome
  exit_reason : ExitReason
deriving DecidableEq, Repr

/-- Simulation state: the single pending-order slot, the single open-trade
slot, and the accumulated trades. -/
structure BtState where
  pending : Option PendingOrder
  openTrade : Option OpenTrade
  trades : List ClosedTrade
deriving DecidableEq, Repr

/-- `_is_valid_order` from `backtest.py`. -/
def isValidOrder (side : Side) (entry stop target : ℚ) : Bool :=
  match side with
  | .long => decide (stop < entry) && decide (entry < target)
  | .short => decide (target < entry) && decide (entry < stop)

/-- `_trade_pnl` from `backtest.py`: gross return minus the round-trip fee. -/
def tradePnl (side : Side) (entry exitPrice fee : ℚ) : ℚ :=
  (match side with
   | .long => (exitPrice - entry) / entry
   | .short => (entry - exitPrice) / entry) - 2 * fee

/-- Outcome label: `win` if pnl > 0, `loss` if pnl < 0, else `flat`. -/
def outcomeOf (pnl : ℚ) : Outcome :=
  if 0 < pnl then .win else if pnl < 0 then .loss else .flat

/-- Intrabar stop/target evaluation of `simulate_trades`: long hits its stop
when `low ≤ stop_loss` and its target when `high ≥ target`, short
symmetrically; both together exit at the stop with the tie-break reason. -/
def checkExit (side : Side) (stop target high low : ℚ) : Option (ℚ × ExitReason) :=
  match side with
  | .long =>
    if low ≤ stop ∧ target ≤ high then some (stop, .stop_and_target_same_candle)
    else if low ≤ stop then some (stop, .stop_loss)
    else if target ≤ high then some (target, .target)
    else none
  | .short =>
    if stop ≤ high ∧ low ≤ target then some (stop, .stop_and_target_same_candle)
    else if stop ≤ high then some (stop, .stop_loss)
    else if low ≤ target then some (target, .target)
    else none

/-- Materialize the closed-trade record appended by `simulate_trades`. -/
def closeTrade (t : OpenTrade) (exitTime : ℕ) (exitPrice : ℚ) (reason : ExitReason)
    (fee : ℚ) : ClosedTrade :=
  { signal_time := t.signal_time
    entry_time := t.entry_time
    exit_time := exitTime
    side := t.side
    entry := t.entry
    stop_loss := t.stop_loss
    target := t.target
    exit_price := exitPrice
    pnl := tradePnl t.side t.entry exitPrice fee
    outcome := outcomeOf (tradePnl t.side t.entry exitPrice fee)
    exit_reason := reason }

/-- Phase 1 of each loop iteration: if a pending order exists and no trade is
open, promote it to an open trade at the current row's timestamp. -/
def promoteStep (s : BtState) (row : Row) : BtState :=
  match s.openTrade, s.pending with
  | none, some p =>
    { s with
      openTrade := some
        { signal_time := p.signal_time
          entry_time := row.ts
          side := p.side
          entry := p.entry
          stop_loss := p.stop_loss
          target := p.target }
      pending := none }
  | _, _ => s

/-- Phase 2: if a trade is open, evaluate the intrabar exits against the
current row's high/low and close the trade when one triggers. -/
def exitStep (s : BtState) (row : Row) (fee : ℚ) : BtState :=
  match s.openTrade with
  | some t =>
    match checkExit t.side t.stop_loss t.target row.high row.low with
    | some (price, reason) =>
      { s with trades := s.trades ++ [closeTrade t row.ts price reason fee],
               openTrade := none }
    | none => s
  | none => s

/-- Phase 3: if neither a trade is open nor an order pending, a long/short
row with all of entry/stop/target present and a valid ordering creates a
pending order at this timestamp. -/
def signalStep (s : BtState) (row : Row) : BtState :=
  match s.openTrade, s.pending with
  | none, none =>
    match row.action, row.entry, row.stop_loss, row.target with
    | .long, some e, some st, some tg =>
      if isValidOrder .long e st tg then
        { s with pending := some ⟨row.ts, .long, e, st, tg⟩ }
      else s
    | .short, some e, some st, some tg =>
      if isValidOrder .short e st tg then
        { s with pending := some ⟨row.ts, .short, e, st, tg⟩ }
      else s
    | _, _, _, _ => s
  | _, _ => s

/-- One iteration of the `simulate_trades` loop: promote, check exits, then
possibly create a new pending order from the row's signal. -/
def stepTrades (fee : ℚ) (s : BtState) (row : Row) : BtState :=
  signalStep (exitStep (promoteStep s row) row fee) row

/-- `simulate_trades` (trades list): restrict the frame to the evaluation
window, fold the state machine over the rows, and force-close a still-open
trade at the final candle's close with reason `end_of_data`. -/
def simulateTrades (frame : List Row) (evalStart evalEnd : ℕ) (fee : ℚ) :
    List ClosedTrade :=
  let data := frame.filter (fun r => decide (evalStart ≤ r.ts) && decide (r.ts ≤ evalEnd))
  let final := data.foldl (stepTrades fee) ⟨none, none, []⟩
  match final.openTrade, data.getLast? with
  | some t, some lastRow =>
    final.trades ++ [closeTrade t lastRow.ts lastRow.close .end_of_data fee]
  | _, _ => final.trades

/-! ## Worker failure path (`SignalWorker.run_once` in `worker.py`) -/

/-- The settings fields `run_once` reads. -/
structure WSettings where
  symbol : String
  timeframe : String
  exchangeId : String
deriving DecidableEq, Repr

/-- A normalized snapshot (`snapshot.py` key set). The nested signal dict is
the `Signal` produced by the evaluator. -/
structure Snapshot where
  symbol : Option String
  timeframe : Option String
  timestamp : Option String
  candle_time : Option String
  signal : Option Signal
  stale : Bool
  error : Option String
  last_fetch_status : String
  last_success_at : Option String
  source : Option String
deriving DecidableEq, Repr

/-- Python's `a or b` on an optional string: `None` and the empty string are
falsy. -/
def orStr (a : Option String) (b : String) : String :=
  match a with
  | some s => if s = "" then b else s
  | none => b

/-- `SignalWorker.run_once`, with the fetch→prepare→signal part of the `try`
block abstracted into one outcome: on success it yields the latest signal
and its candle time, on failure the exception message. The store is a
value (`Option Snapshot`); the result is `(store after the cycle, return
value)`. -/
def runOnce (st : WSettings) (store : Option Snapshot)
    (compute : Except String (Signal × String)) (now : String) :
    Option Snapshot × Option Snapshot :=
  let source := "ccxt:" ++ st.exchangeId
  match compute with
  | .ok (signal, candleTime) =>
    let snap : Snapshot :=
      { symbol := some st.symbol
        timeframe := some st.timeframe
        timestamp := some now
        candle_time := some candleTime
        signal := some signal
        stale := false
        error := none
        last_fetch_status := "ok"
        last_success_at := some now
        source := some source }
    (some snap, some snap)
  | .error e =>
    match store with
    | none => (none, none)
    | some prev =>
      let snap : Snapshot :=
        { symbol := some (orStr prev.symbol st.symbol)
          timeframe := some (orStr prev.timeframe st.timeframe)
          timestamp := some now
          candle_time := prev.candle_time
          signal := prev.signal
          stale := true
          error := some e
          last_fetch_status := "failed"
          last_success_at := prev.last_success_at
          source := some (orStr prev.source source) }
      (some snap, some snap)

/-! ## Helper lemmas -/

/-- `is_long` and `is_short` can never both hold: they require opposite
strict comparisons of price against ema7. -/
lemma isLong_and_isShort_false (price ema7 : ℚ) (r : FeatureRow) :
    (isLong price ema7 r && isShort price ema7 r) = false := by
  by_cases h1 : ema7 < price
  · have h2 : ¬ price < ema7 := lt_asymm h1
    simp [isShort, h2]
  · simp [isLong, h1]

/-- The signal phase never opens, closes or records trades: it only ever
fills the pending-order slot. -/
lemma signalStep_preserves (s : BtState) (row : Row) :
    (signalStep s row).trades = s.trades ∧ (signalStep s row).openTrade = s.openTrade := by
  rcases s with ⟨pend, opn, trs⟩
  rcases row with ⟨ts, high, low, close, action, entry, stop, target⟩
  rcases pend with _ | p <;> rcases opn with _ | t <;> simp [signalStep] <;>
    rcases action <;> rcases entry <;> rcases stop <;> rcases target <;>
      simp <;> split_ifs <;> simp

/-- The signal phase is the identity unless both slots are empty. -/
lemma signalStep_blocked (s : BtState) (row : Row)
    (h : s.openTrade ≠ none ∨ s.pending ≠ none) : signalStep s row = s := by
  unfold signalStep
  rcases ho : s.openTrade with _ | t <;> rcases hp : s.pending with _ | p <;> simp
  rw [ho, hp] at h
  simp at h

/-- With a trade already open, the promotion phase does nothing. -/
lemma promoteStep_open (s : BtState) (row : Row) (t : OpenTrade)
    (h : s.openTrade = some t) : promoteStep s row = s := by
  unfold promoteStep
  rw [h]

/-- With no trade open and a pending order, the promotion phase opens the
trade at the current row's timestamp and clears the pending slot. -/
lemma promoteStep_fires (s : BtState) (row : Row) (p : PendingOrder)
    (ho : s.openTrade = none) (hp : s.pending = some p) :
    promoteStep s row =
      { s with
        openTrade := some
          { signal_time := p.signal_time, entry_time := row.ts, side := p.side,
            entry := p.entry, stop_loss := p.stop_loss, target := p.target }
        pending := none } := by
  unfold promoteStep
  rw [ho, hp]

/-- `hit_stop` of `simulate_trades`: long when `low ≤ stop_loss`, short when
`high ≥ stop_loss`. -/
def hitStop (t : OpenTrade) (row : Row) : Bool :=
  match t.side with
  | .long => decide (row.low ≤ t.stop_loss)
  | .short => decide (t.stop_loss ≤ row.high)

/-- `hit_target` of `simulate_trades`: long when `high ≥ target`, short when
`low ≤ target`. -/
def hitTarget (t : OpenTrade) (row : Row) : Bool :=
  match t.side with
  | .long => decide (t.target ≤ row.high)
  | .short => decide (row.low ≤ t.target)

/-- `checkExit` in terms of the two hit flags: stop-priority tie-break. -/
lemma checkExit_cases (t : OpenTrade) (row : Row) :
    checkExit t.side t.stop_loss t.target row.high row.low =
      (if hitStop t row then
        (if hitTarget t row then some (t.stop_loss, .stop_and_target_same_candle)
         else some (t.stop_loss, .stop_loss))
       else if hitTarget t row then some (t.target, .target)
       else none) := by
  rcases hs : t.side <;> simp only [checkExit, hitStop, hitTarget, hs]
  · by_cases h1 : row.low ≤ t.stop_loss <;> by_cases h2 : t.target ≤ row.high <;>
      simp [h1, h2]
  · by_cases h1 : t.stop_loss ≤ row.high <;> by_cases h2 : row.low ≤ t.target <;>
      simp [h1, h2]

/-! ## Claim theorems -/

/-- C7: `ema`, `macd`, `rsi`, `volume_ma` and `detect_pivots` signal an
invalid-parameter error exactly when called with a non-positive
period/window or, for `macd`, with `fast ≥ slow`; valid parameters never
raise and invalid ones are never clamped. -/
theorem indicators_validate_parameters :
    ∀ (s v high low : List ℚ) (p fast slow signal w pw : ℤ),
      ((∃ e, ema s p = .error e) ↔ p ≤ 0) ∧
      ((∃ e, macd s fast slow signal = .error e) ↔
        (fast ≤ 0 ∨ slow ≤ 0 ∨ signal ≤ 0 ∨ slow ≤ fast)) ∧
      ((∃ e, rsi s p = .error e) ↔ p ≤ 0) ∧
      ((∃ e, volume_ma v w = .error e) ↔ w ≤ 0) ∧
      ((∃ e, detect_pivots high low pw = .error e) ↔ pw ≤ 0) := by
  intro s v high low p fast slow signal w pw
  refine ⟨?_, ?_, ?_, ?_, ?_⟩
  · unfold ema; split_ifs with h <;> simp [h]
  · unfold macd; split_ifs with h1 h2 <;> simp_all <;> tauto
  · unfold rsi; split_ifs with h <;> simp [h]
  · unfold volume_ma; split_ifs with h <;> simp [h]
  · unfold detect_pivots; split_ifs with h <;> simp [h]

/-- C8: on a failing fetch/compute cycle, `run_once` with a previous
snapshot writes and returns a snapshot that is stale, marked failed, and
preserves the previous signal, candle time and last success time; with no
previous snapshot it returns nothing and leaves the store untouched. -/
theorem run_once_failure_path :
    ∀ (st : WSettings) (e now : String),
      (∀ prev : Snapshot, ∃ snap : Snapshot,
        runOnce st (some prev) (.error e) now = (some snap, some snap) ∧
        snap.stale = true ∧
        snap.last_fetch_status = "failed" ∧
        snap.signal = prev.signal ∧
        snap.candle_time = prev.candle_time ∧
        snap.last_success_at = prev.last_success_at) ∧
      runOnce st none (.error e) now = (none, none) := by
  intro st e now
  exact ⟨fun prev => ⟨_, rfl, rfl, rfl, rfl, rfl, rfl⟩, rfl⟩

/-- C9: the long and the short condition are never both true, so the
priority of evaluating `is_long` first never decides the outcome: the
evaluator with the two branches swapped computes the same signal, and
every row yields exactly one action. -/
theorem signal_long_short_exclusive :
    (∀ (price ema7 : ℚ) (r : FeatureRow),
      (isLong price ema7 r && isShort price ema7 r) = false) ∧
    (∀ r : FeatureRow, signalFromRow r = signalFromRowShortFirst r) := by
  refine ⟨isLong_and_isShort_false, fun r => ?_⟩
  unfold signalFromRow signalFromRowShortFirst
  rcases hp : r.price with _ | price <;> rcases he : r.ema7 with _ | ema7 <;> simp
  split_ifs with h0 hl hs hs2 <;> try rfl
  have h := isLong_and_isShort_false price ema7 r
  rw [hl, hs] at h
  simp at h

/-- C1: the simulation state holds at most one pending order and one open
trade (single `Option` slots); in each iteration the signal phase never
touches the open-trade slot or the trades list, and either it leaves the
state entirely unchanged (the signal is dropped) or both the open trade
and the pending order were absent when the signal was evaluated — the only
situation in which a new pending order can be created. -/
theorem single_position_serialization :
    ∀ (fee : ℚ) (s : BtState) (row : Row),
      (stepTrades fee s row).openTrade = (exitStep (promoteStep s row) row fee).openTrade ∧
      (stepTrades fee s row).trades = (exitStep (promoteStep s row) row fee).trades ∧
      (stepTrades fee s row = exitStep (promoteStep s row) row fee ∨
        ((exitStep (promoteStep s row) row fee).openTrade = none ∧
         (exitStep (promoteStep s row) row fee).pending = none)) := by
  intro fee s row
  unfold stepTrades
  have h1 := signalStep_preserves (exitStep (promoteStep s row) row fee) row
  refine ⟨h1.2, h1.1, ?_⟩
  rcases ho : (exitStep (promoteStep s row) row fee).openTrade with _ | t
  · rcases hp : (exitStep (promoteStep s row) row fee).pending with _ | p
    · exact Or.inr ⟨rfl, rfl⟩
    · exact Or.inl (signalStep_blocked _ row (Or.inr (by rw [hp]; simp)))
  · exact Or.inl (signalStep_blocked _ row (Or.inl (by rw [ho]; simp)))

/-- C2: with a trade open, the iteration closes it at the stop with the
tie-break reason when stop and target trigger on the same candle, at the
triggering level with the matching reason when exactly one triggers, and
leaves the whole state unchanged (the trade stays open) when neither does. -/
theorem intrabar_exit_rules :
    ∀ (fee : ℚ) (s : BtState) (row : Row) (t : OpenTrade), s.openTrade = some t →
      (hitStop t row = true → hitTarget t row = true →
        (stepTrades fee s row).trades =
          s.trades ++ [closeTrade t row.ts t.stop_loss .stop_and_target_same_candle fee] ∧
        (stepTrades fee s row).openTrade = none) ∧
      (hitStop t row = true → hitTarget t row = false →
        (stepTrades fee s row).trades =
          s.trades ++ [closeTrade t row.ts t.stop_loss .stop_loss fee] ∧
        (stepTrades fee s row).openTrade = none) ∧
      (hitStop t row = false → hitTarget t row = true →
        (stepTrades fee s row).trades =
          s.trades ++ [closeTrade t row.ts t.target .target fee] ∧
        (stepTrades fee s row).openTrade = none) ∧
      (hitStop t row = false → hitTarget t row = false →
        stepTrades fee s row = s) := by
  intro fee s row t ho
  unfold stepTrades
  rw [promoteStep_open s row t ho]
  have hex : exitStep s row fee =
      (match checkExit t.side t.stop_loss t.target row.high row.low with
       | some (price, reason) =>
         { s with trades := s.trades ++ [closeTrade t row.ts price reason fee],
                  openTrade := none }
       | none => s) := by
    unfold exitStep; rw [ho]
  rw [checkExit_cases] at hex
  refine ⟨?_, ?_, ?_, ?_⟩ <;> intro h1 h2 <;> rw [h1, h2] at hex <;> simp at hex
  · exact ⟨by rw [(signalStep_preserves _ row).1, hex],
          by rw [(signalStep_preserves _ row).2, hex]⟩
  · exact ⟨by rw [(signalStep_preserves _ row).1, hex],
          by rw [(signalStep_preserves _ row).2, hex]⟩
  · exact ⟨by rw [(signalStep_preserves _ row).1, hex],
          by rw [(signalStep_preserves _ row).2, hex]⟩
  · rw [hex]
    exact signalStep_blocked s row (Or.inl (by rw [ho]; simp))

/-- C10: a pending order promoted at candle `t` is checked against that same
candle's high/low in the same iteration, so when an exit triggers there the
recorded trade has `exit_time = entry_time = t`. -/
theorem entry_candle_exit :
    ∀ (fee : ℚ) (s : BtState) (row : Row) (p : PendingOrder) (price : ℚ)
      (reason : ExitReason),
      s.openTrade = none → s.pending = some p →
      checkExit p.side p.stop_loss p.target row.high row.low = some (price, reason) →
      ∃ tr : ClosedTrade,
        (stepTrades fee s row).trades = s.trades ++ [tr] ∧
        tr.signal_time = p.signal_time ∧ tr.entry_time = row.ts ∧
        tr.exit_time = row.ts ∧ tr.exit_price = price ∧ tr.exit_reason = reason := by
  intro fee s row p price reason ho hp hc
  unfold stepTrades
  rw [promoteStep_fires s row p ho hp]
  refine ⟨closeTrade
      ⟨p.signal_time, row.ts, p.side, p.entry, p.stop_loss, p.target⟩
      row.ts price reason fee, ?_, rfl, rfl, rfl, rfl, rfl⟩
  rw [(signalStep_preserves _ row).1]
  unfold exitStep
  simp [hc]

/-- Invariant before processing a row at time `bound`: every time recorded
in the state is strictly earlier, and every entry strictly follows its
signal. -/
def InvB (bound : ℕ) (s : BtState) : Prop :=
  (∀ p, s.pending = some p → p.signal_time < bound) ∧
  (∀ t, s.openTrade = some t → t.signal_time < t.entry_time ∧ t.entry_time < bound) ∧
  (∀ tr ∈ s.trades, tr.signal_time < tr.entry_time)

/-- Invariant after processing the row at time `ts`: times are `≤ ts`. -/
def MidInv (ts : ℕ) (s : BtState) : Prop :=
  (∀ p, s.pending = some p → p.signal_time ≤ ts) ∧
  (∀ t, s.openTrade = some t → t.signal_time < t.entry_time ∧ t.entry_time ≤ ts) ∧
  (∀ tr ∈ s.trades, tr.signal_time < tr.entry_time)

/-- With neither slot filled, the promotion phase does nothing. -/
lemma promoteStep_idle (s : BtState) (row : Row)
    (ho : s.openTrade = none) (hp : s.pending = none) : promoteStep s row = s := by
  unfold promoteStep
  rw [ho, hp]

/-- With no trade open, the exit phase does nothing. -/
lemma exitStep_closed (s : BtState) (row : Row) (fee : ℚ)
    (ho : s.openTrade = none) : exitStep s row fee = s := by
  unfold exitStep
  rw [ho]

/-- The exit phase with an open trade, as a function of `checkExit`. -/
lemma exitStep_open (s : BtState) (row : Row) (fee : ℚ) (t : OpenTrade)
    (ho : s.openTrade = some t) :
    exitStep s row fee =
      (match checkExit t.side t.stop_loss t.target row.high row.low with
       | some (price, reason) =>
         { s with trades := s.trades ++ [closeTrade t row.ts price reason fee],
                  openTrade := none }
       | none => s) := by
  unfold exitStep
  rw [ho]

/-- A pending order present after the signal phase either was just created
at the row's timestamp or was already there. -/
lemma signalStep_pending (s : BtState) (row : Row) (p : PendingOrder)
    (hp : (signalStep s row).pending = some p) :
    p.signal_time = row.ts ∨ s.pending = some p := by
  rcases s with ⟨pend, opn, trs⟩
  rcases row with ⟨ts, high, low, close, action, entry, stop, target⟩
  rcases pend with _ | q <;> rcases opn with _ | t <;>
    simp [signalStep] at hp ⊢ <;> try exact Or.inr hp
  rcases action <;> rcases entry <;> rcases stop <;> rcases target <;>
    simp at hp <;> try split_ifs at hp <;> simp at hp
  all_goals first
    | (left; rw [← hp])
    | rw [← hp]
    | exact hp.elim

lemma promote_mid (s : BtState) (row : Row) (h : InvB row.ts s) :
    MidInv row.ts (promoteStep s row) := by
  obtain ⟨h1, h2, h3⟩ := h
  rcases ho : s.openTrade with _ | t
  · rcases hp : s.pending with _ | p
    · rw [promoteStep_idle s row ho hp]
      exact ⟨fun p hp' => (by rw [hp] at hp'; cases hp'),
             fun t ht => (by rw [ho] at ht; cases ht), h3⟩
    · rw [promoteStep_fires s row p ho hp]
      refine ⟨by simp, ?_, h3⟩
      intro t ht
      simp at ht
      rw [← ht]
      exact ⟨h1 p hp, le_refl _⟩
  · rw [promoteStep_open s row t ho]
    refine ⟨fun p hp' => le_of_lt (h1 p hp'), ?_, h3⟩
    intro t' ht'
    obtain ⟨ha, hb⟩ := h2 t' ht'
    exact ⟨ha, le_of_lt hb⟩

lemma exit_mid (s : BtState) (row : Row) (fee : ℚ) (h : MidInv row.ts s) :
    MidInv row.ts (exitStep s row fee) := by
  obtain ⟨h1, h2, h3⟩ := h
  rcases ho : s.openTrade with _ | t
  · rw [exitStep_closed s row fee ho]
    exact ⟨h1, h2, h3⟩
  · rw [exitStep_open s row fee t ho]
    rcases hc : checkExit t.side t.stop_loss t.target row.high row.low with _ | pr
    · exact ⟨h1, h2, h3⟩
    · obtain ⟨price, reason⟩ := pr
      refine ⟨h1, by simp, ?_⟩
      intro tr htr
      simp at htr
      rcases htr with htr | htr
      · exact h3 tr htr
      · rw [htr]
        exact (h2 t ho).1

lemma signal_mid (s : BtState) (row : Row) (h : MidInv row.ts s) :
    MidInv row.ts (signalStep s row) := by
  obtain ⟨h1, h2, h3⟩ := h
  have hpres := signalStep_preserves s row
  refine ⟨?_, fun t ht => h2 t (by rw [← hpres.2]; exact ht), ?_⟩
  · intro p hp
    rcases signalStep_pending s row p hp with hnew | hold
    · rw [hnew]
    · exact h1 p hold
  · intro tr htr
    rw [hpres.1] at htr
    exact h3 tr htr

/-- One full iteration preserves the timing invariant, moving the bound to
any time strictly after the processed row. -/
lemma step_invB (fee : ℚ) (s : BtState) (row : Row) (h : InvB row.ts s) :
    ∀ b, row.ts < b → InvB b (stepTrades fee s row) := by
  intro b hb
  have hm : MidInv row.ts (stepTrades fee s row) :=
    signal_mid _ row (exit_mid _ row fee (promote_mid s row h))
  obtain ⟨h1, h2, h3⟩ := hm
  exact ⟨fun p hp => lt_of_le_of_lt (h1 p hp) hb,
         fun t ht => ⟨(h2 t ht).1, lt_of_le_of_lt (h2 t ht).2 hb⟩, h3⟩

/-- The timing facts needed about a finished simulation state. -/
def TradesOk (s : BtState) : Prop :=
  (∀ t, s.openTrade = some t → t.signal_time < t.entry_time) ∧
  (∀ tr ∈ s.trades, tr.signal_time < tr.entry_time)

lemma fold_tradesOk (fee : ℚ) :
    ∀ (data : List Row) (s : BtState),
      List.Pairwise (fun r1 r2 => r1.ts < r2.ts) data →
      (∀ r ∈ data, InvB r.ts s) →
      TradesOk s →
      TradesOk (data.foldl (stepTrades fee) s) := by
  intro data
  induction data with
  | nil => intro s _ _ hok; exact hok
  | cons r rest ih =>
    intro s hpw hinv hok
    rw [List.foldl_cons]
    have hr : InvB r.ts s := hinv r (by simp)
    have hrest : ∀ r' ∈ rest, InvB r'.ts (stepTrades fee s r) := by
      intro r' hr'
      exact step_invB fee s r hr r'.ts ((List.pairwise_cons.mp hpw).1 r' hr')
    have hok' : TradesOk (stepTrades fee s r) := by
      have := step_invB fee s r hr (r.ts + 1) (Nat.lt_succ_self _)
      exact ⟨fun t ht => (this.2.1 t ht).1, this.2.2⟩
    exact ih (stepTrades fee s r) (List.pairwise_cons.mp hpw).2 hrest hok'

/-- C3: a pending order is promoted at the start of the next iteration with
`entry_time` equal to that iteration's candle timestamp (never the signal
candle), and over any strictly time-ordered frame every recorded trade has
`signal_time < entry_time`. -/
theorem entry_after_signal :
    ∀ (fee : ℚ) (frame : List Row) (a b : ℕ),
      (∀ (s : BtState) (row : Row) (p : PendingOrder),
        s.pending = some p → s.openTrade = none →
        (promoteStep s row).openTrade = some
          { signal_time := p.signal_time, entry_time := row.ts, side := p.side,
            entry := p.entry, stop_loss := p.stop_loss, target := p.target } ∧
        (promoteStep s row).pending = none) ∧
      (List.Pairwise (fun r1 r2 => r1.ts < r2.ts) frame →
        ∀ tr, tr ∈ simulateTrades frame a b fee → tr.signal_time < tr.entry_time) := by
  intro fee frame a b
  constructor
  · intro s row p hp ho
    rw [promoteStep_fires s row p ho hp]
    exact ⟨rfl, rfl⟩
  · intro hpw tr htr
    have hpwd : List.Pairwise (fun r1 r2 => r1.ts < r2.ts)
        (frame.filter (fun r => decide (a ≤ r.ts) && decide (r.ts ≤ b))) :=
      List.Pairwise.sublist (List.filter_sublist frame) hpw
    have hok : TradesOk ((frame.filter
        (fun r => decide (a ≤ r.ts) && decide (r.ts ≤ b))).foldl
          (stepTrades fee) ⟨none, none, []⟩) :=
      fold_tradesOk fee _ _ hpwd
        (fun r _ => by
          unfold InvB
          refine ⟨fun p hp => ?_, fun t ht => ?_, fun tr h => ?_⟩
          · exact nomatch hp
          · exact nomatch ht
          · exact nomatch h)
        (by
          unfold TradesOk
          refine ⟨fun t ht => ?_, fun tr h => ?_⟩
          · exact nomatch ht
          · exact nomatch h)
    unfold simulateTrades at htr
    simp only at htr
    rcases hfin : ((frame.filter
        (fun r => decide (a ≤ r.ts) && decide (r.ts ≤ b))).foldl
          (stepTrades fee) ⟨none, none, []⟩).openTrade with _ | t
    · simp only [hfin] at htr
      exact hok.2 tr htr
    · rcases hlast : (frame.filter
          (fun r => decide (a ≤ r.ts) && decide (r.ts ≤ b))).getLast? with _ | lastRow
      · simp only [hfin, hlast] at htr
        exact hok.2 tr htr
      · simp only [hfin, hlast, List.mem_append, List.mem_singleton] at htr
        rcases htr with htr | htr
        · exact hok.2 tr htr
        · rw [htr]
          exact hok.1 t hfin

/-- Indexed characterization of the level-tracker loop: the output at
position `j` queries the accumulated sets extended with exactly the pivots
of the indices processed so far. -/
lemma levelsGo_get? (high low close : List ℚ) (w : ℕ) :
    ∀ (n a j : ℕ) (res sup : List ℚ), j < n →
      (levelsGo high low close w (List.range' a n) res sup).get? j =
        some (optMin ((res ++ (List.range' a (j + 1)).filterMap (pivotHigh high w)).filter
                (fun x => close.getD (a + j) 0 ≤ x)),
              optMax ((sup ++ (List.range' a (j + 1)).filterMap (pivotLow low w)).filter
                (fun x => x ≤ close.getD (a + j) 0))) := by
  intro n
  induction n with
  | zero => intro a j res sup hj; omega
  | succ n ih =>
    intro a j res sup hj
    rw [List.range'_succ]
    cases j with
    | zero =>
      cases hpv : pivotHigh high w a <;> cases hpl : pivotLow low w a <;>
        simp [levelsGo, hpv, hpl, List.filterMap_cons, List.range'_one]
    | succ j =>
      have hj' : j < n := by omega
      have hadd : a + (j + 1) = a + 1 + j := by omega
      cases hpv : pivotHigh high w a <;> cases hpl : pivotLow low w a <;>
        simp only [levelsGo, hpv, hpl, List.get?_cons_succ] <;>
        rw [ih (a + 1) j _ _ hj'] <;>
        rw [show List.range' a (j + 1 + 1) = a :: List.range' (a + 1) (j + 1) from
              List.range'_succ a (j + 1) 1] <;>
        simp [List.filterMap_cons, hpv, hpl, hadd, List.append_assoc]

/-- Truncating the highs after index `t` does not change pivot detection at
indices `≤ t`. -/
lemma pivotHigh_take (high : List ℚ) (w t i : ℕ) (h : i ≤ t) :
    pivotHigh (high.take (t + 1)) w i = pivotHigh high w i := by
  unfold pivotHigh
  rw [List.get?_eq_getElem?, List.get?_eq_getElem?, List.getElem?_take,
      if_pos (by omega : i < t + 1), List.take_take,
      min_eq_left (by omega : i + 1 ≤ t + 1)]

/-- Truncating the lows after index `t` does not change pivot detection at
indices `≤ t`. -/
lemma pivotLow_take (low : List ℚ) (w t i : ℕ) (h : i ≤ t) :
    pivotLow (low.take (t + 1)) w i = pivotLow low w i := by
  unfold pivotLow
  rw [List.get?_eq_getElem?, List.get?_eq_getElem?, List.getElem?_take,
      if_pos (by omega : i < t + 1), List.take_take,
      min_eq_left (by omega : i + 1 ≤ t + 1)]

/-- C4: `add_levels` sets `nearest_resistance` at row `t` to the minimum of
the pivot highs detected at indices `≤ t` that are `≥ close[t]` (none if
there is none), `nearest_support` to the maximum of the pivot lows detected
at indices `≤ t` that are `≤ close[t]`, and the values at `t` are unchanged
when every row after `t` is dropped (no dependence on the future). -/
theorem nearest_levels_causal :
    ∀ (high low close : List ℚ) (w t : ℕ), t < close.length →
      (addLevels high low close w).get? t =
        some (optMin (((List.range (t + 1)).filterMap (pivotHigh high w)).filter
                (fun x => close.getD t 0 ≤ x)),
              optMax (((List.range (t + 1)).filterMap (pivotLow low w)).filter
                (fun x => x ≤ close.getD t 0))) ∧
      (addLevels (high.take (t + 1)) (low.take (t + 1)) (close.take (t + 1)) w).get? t =
        (addLevels high low close w).get? t := by
  intro high low close w t ht
  have key : ∀ (H L C : List ℚ), t < C.length →
      (addLevels H L C w).get? t =
        some (optMin (((List.range (t + 1)).filterMap (pivotHigh H w)).filter
                (fun x => C.getD t 0 ≤ x)),
              optMax (((List.range (t + 1)).filterMap (pivotLow L w)).filter
                (fun x => x ≤ C.getD t 0))) := by
    intro H L C hC
    unfold addLevels
    rw [List.range_eq_range' C.length]
    have h := levelsGo_get? H L C w C.length 0 t [] [] hC
    simpa [List.range_eq_range'] using h
  have htake : t < (close.take (t + 1)).length := by
    rw [List.length_take]
    omega
  refine ⟨key high low close ht, ?_⟩
  rw [key high low close ht, key _ _ _ htake]
  have hcl : (close.take (t + 1)).getD t 0 = close.getD t 0 := by
    rw [List.getD_eq_getElem?_getD, List.getD_eq_getElem?_getD, List.getElem?_take,
        if_pos (by omega : t < t + 1)]
  have hfh : (List.range (t + 1)).filterMap (pivotHigh (high.take (t + 1)) w) =
      (List.range (t + 1)).filterMap (pivotHigh high w) :=
    List.filterMap_congr (fun i hi =>
      pivotHigh_take high w t i (by simpa [Nat.lt_succ_iff] using List.mem_range.mp hi))
  have hfl : (List.range (t + 1)).filterMap (pivotLow (low.take (t + 1)) w) =
      (List.range (t + 1)).filterMap (pivotLow low w) :=
    List.filterMap_congr (fun i hi =>
      pivotLow_take low w t i (by simpa [Nat.lt_succ_iff] using List.mem_range.mp hi))
  rw [hcl, hfh, hfl]

lemma emaGo_length (α : ℚ) : ∀ (xs : List ℚ) (prev : ℚ),
    (emaGo α prev xs).length = xs.length := by
  intro xs
  induction xs with
  | nil => intro prev; rfl
  | cons x xs ih => intro prev; simp [emaGo, ih]

lemma emaCore_length (α : ℚ) (s : List ℚ) : (emaCore α s).length = s.length := by
  cases s with
  | nil => rfl
  | cons x xs => simp [emaCore, emaGo_length]

lemma emaGo_getD_succ (α : ℚ) : ∀ (xs : List ℚ) (prev : ℚ) (i : ℕ),
    i + 1 < xs.length →
    (emaGo α prev xs).getD (i + 1) 0 =
      α * xs.getD (i + 1) 0 + (1 - α) * (emaGo α prev xs).getD i 0 := by
  intro xs
  induction xs with
  | nil => intro prev i h; simp at h
  | cons x xs ih =>
    intro prev i h
    cases i with
    | zero =>
      cases xs with
      | nil => simp at h
      | cons y ys => simp [emaGo]
    | succ i =>
      have h' : i + 1 < xs.length := by simpa using h
      simp only [emaGo, List.getD_cons_succ]
      exact ih _ i h'

lemma emaCore_getD_succ (α : ℚ) (s : List ℚ) (i : ℕ) (h : i + 1 < s.length) :
    (emaCore α s).getD (i + 1) 0 =
      α * s.getD (i + 1) 0 + (1 - α) * (emaCore α s).getD i 0 := by
  cases s with
  | nil => simp at h
  | cons x xs =>
    cases i with
    | zero =>
      cases xs with
      | nil => simp at h
      | cons y ys => simp [emaCore, emaGo]
    | succ i =>
      have h' : i + 1 < xs.length := by simpa using h
      simp only [emaCore, List.getD_cons_succ]
      exact emaGo_getD_succ α xs x i h'

lemma emaCore_head? (α : ℚ) (s : List ℚ) : (emaCore α s).head? = s.head? := by
  cases s <;> rfl

/-- C5: for any positive period, `ema` is the exact recursion with
`α = 2/(p+1)`: same length as the input, first output equal to the first
input, each later output `α·x + (1-α)·prev`, and in particular
`ema([1,2,3,4,5], 3) = [1, 1.5, 2.25, 3.125, 4.0625]`. -/
theorem ema_recursive_form :
    ∀ (s : List ℚ) (p : ℤ), 0 < p →
      ema s p = .ok (emaCore (2 / ((p : ℚ) + 1)) s) ∧
      (emaCore (2 / ((p : ℚ) + 1)) s).length = s.length ∧
      (emaCore (2 / ((p : ℚ) + 1)) s).head? = s.head? ∧
      (∀ i, i + 1 < s.length →
        (emaCore (2 / ((p : ℚ) + 1)) s).getD (i + 1) 0 =
          (2 / ((p : ℚ) + 1)) * s.getD (i + 1) 0 +
          (1 - 2 / ((p : ℚ) + 1)) * (emaCore (2 / ((p : ℚ) + 1)) s).getD i 0) ∧
      ema [1, 2, 3, 4, 5] 3 = .ok [1, 3/2, 9/4, 25/8, 65/16] := by
  intro s p hp
  refine ⟨?_, emaCore_length _ s, emaCore_head? _ s,
          fun i hi => emaCore_getD_succ _ s i hi, ?_⟩
  · unfold ema
    rw [if_neg (by omega)]
  · unfold ema
    rw [if_neg (by norm_num)]
    congr 1
    show emaCore (2 / ((3 : ℤ) + 1 : ℚ)) [1, 2, 3, 4, 5] = [1, 3/2, 9/4, 25/8, 65/16]
    simp [emaCore, emaGo]
    norm_num

/-- Witness for C5 at `s = [1,2,3,4,5]`, `p = 3`. -/
theorem ema_recursive_form_witness :
    ema [1, 2, 3, 4, 5] 3 = .ok [1, 3/2, 9/4, 25/8, 65/16] :=
  (ema_recursive_form [1, 2, 3, 4, 5] 3 (by norm_num)).2.2.2.2

/-- C6: for any positive period every defined `rsi` value lies in `[0,100]`,
and on every defined row whose Wilder-smoothed average loss is exactly `0`
the value is exactly `100`. -/
theorem rsi_bounds :
    ∀ (s : List ℚ) (p : ℤ), 0 < p →
      rsi s p = .ok (rsiCore s p.toNat) ∧
      (∀ o ∈ rsiCore s p.toNat, ∀ x, o = some x → 0 ≤ x ∧ x ≤ 100) ∧
      (∀ i, p.toNat ≤ i → i < s.length →
        (wilderAvgLoss s p.toNat).getD (i - 1) 0 = 0 →
        (rsiCore s p.toNat).get? i = some (some 100)) := by
  intro s p hp
  refine ⟨by unfold rsi; rw [if_neg (by omega)], ?_, ?_⟩
  · intro o ho x hx
    unfold rsiCore at ho
    obtain ⟨i, _, rfl⟩ := List.mem_map.mp ho
    by_cases hip : p.toNat ≤ i
    · rw [if_pos hip] at hx
      obtain rfl : _ = x := Option.some.inj hx
      constructor
      · exact le_max_left _ _
      · exact max_le (by norm_num) (min_le_left _ _)
    · rw [if_neg hip] at hx
      cases hx
  · intro i hip hi hl
    unfold rsiCore
    rw [List.get?_eq_getElem?, List.getElem?_map, List.getElem?_range hi]
    simp only [Option.map_some']
    rw [if_pos hip, hl, if_pos rfl]
    norm_num

/-- Witness for C6 at `s = [1,2,3]`, `p = 2`: the series only gains, the
smoothed loss is `0`, and the defined row yields exactly `100`. -/
theorem rsi_bounds_witness :
    (rsiCore [1, 2, 3] (2 : ℤ).toNat).get? 2 = some (some 100) :=
  (rsi_bounds [1, 2, 3] 2 (by norm_num)).2.2 2 (by norm_num) (by norm_num)
    (by simp [wilderAvgLoss, rsiDeltas, emaCore, emaGo]; norm_num)

/-- Witness for C2: a long trade whose stop and target both trigger on the
same candle exits at the stop with the tie-break reason. -/
theorem intrabar_exit_rules_witness :
    (stepTrades 0 ⟨none, some ⟨0, 1, .long, 100, 90, 110⟩, []⟩
        ⟨1, 120, 80, 100, .wait, none, none, none⟩).trades =
      [] ++ [closeTrade ⟨0, 1, .long, 100, 90, 110⟩ 1 90 .stop_and_target_same_candle 0] ∧
    (stepTrades 0 ⟨none, some ⟨0, 1, .long, 100, 90, 110⟩, []⟩
        ⟨1, 120, 80, 100, .wait, none, none, none⟩).openTrade = none :=
  (intrabar_exit_rules 0 _ _ ⟨0, 1, .long, 100, 90, 110⟩ rfl).1
    (by norm_num [hitStop]) (by norm_num [hitTarget])

/-- Witness for C3: on a concrete two-candle strictly ordered frame the
promotion equations hold and every simulated trade enters strictly after
its signal. -/
theorem entry_after_signal_witness :
    ((promoteStep ⟨some ⟨1, .long, 100, 90, 110⟩, none, []⟩
        ⟨2, 120, 95, 110, .wait, none, none, none⟩).openTrade = some
        { signal_time := 1, entry_time := 2, side := .long, entry := 100,
          stop_loss := 90, target := 110 } ∧
      (promoteStep ⟨some ⟨1, .long, 100, 90, 110⟩, none, []⟩
        ⟨2, 120, 95, 110, .wait, none, none, none⟩).pending = none) ∧
    (List.Pairwise (fun r1 r2 => r1.ts < r2.ts)
      [(⟨1, 100, 95, 100, .long, some 100, some 90, some 110⟩ : Row),
       ⟨2, 120, 95, 110, .wait, none, none, none⟩] ∧
     ∀ tr ∈ simulateTrades
        [(⟨1, 100, 95, 100, .long, some 100, some 90, some 110⟩ : Row),
         ⟨2, 120, 95, 110, .wait, none, none, none⟩] 0 10 0,
        tr.signal_time < tr.entry_time) :=
  have hpw : List.Pairwise (fun r1 r2 => r1.ts < r2.ts)
      [(⟨1, 100, 95, 100, .long, some 100, some 90, some 110⟩ : Row),
       ⟨2, 120, 95, 110, .wait, none, none, none⟩] := by simp
  ⟨(entry_after_signal 0 [] 0 0).1 ⟨some ⟨1, .long, 100, 90, 110⟩, none, []⟩
      ⟨2, 120, 95, 110, .wait, none, none, none⟩ ⟨1, .long, 100, 90, 110⟩ rfl rfl,
   hpw, fun tr htr => (entry_after_signal 0 _ 0 10).2 hpw tr htr⟩

/-- Witness for C4 on a concrete three-row frame at `t = 2`. -/
theorem nearest_levels_causal_witness :
    (addLevels ([5, 6, 7].take 3) ([1, 2, 3].take 3) ([5, 6, 7].take 3) 3).get? 2 =
      (addLevels [5, 6, 7] [1, 2, 3] [5, 6, 7] 3).get? 2 :=
  (nearest_levels_causal [5, 6, 7] [1, 2, 3] [5, 6, 7] 3 2 (by norm_num)).2

/-- Witness for C10: a pending long order promoted at a candle whose high
reaches the target closes on that same candle, with equal entry and exit
times. -/
theorem entry_candle_exit_witness :
    ∃ tr : ClosedTrade,
      (stepTrades 0 ⟨some ⟨0, .long, 100, 90, 110⟩, none, []⟩
          ⟨1, 120, 95, 110, .wait, none, none, none⟩).trades = [] ++ [tr] ∧
      tr.signal_time = 0 ∧ tr.entry_time = 1 ∧ tr.exit_time = 1 ∧
      tr.exit_price = 110 ∧ tr.exit_reason = .target :=
  entry_candle_exit 0 _ _ ⟨0, .long, 100, 90, 110⟩ 110 .target rfl rfl (by decide)

end CryptoInvest
